import Mathlib

/-!
Verification development for the `go-access-key-scanner` repository.

The repository contains two variants of the same scanner:
  * `main.go` — sequential: for each commit, checkout then scan then validate;
  * an unnamed second variant (`part_000`) — spawns one goroutine per commit,
    all sharing the same on-disk working tree.

This file shallowly embeds the parts of both variants that the properties
below are about:

  * the two regular-expression pattern pairs of `searchIAMKeysInFile`
    (`main.go` lines 86-87, `part_000` lines 87-88), embedded as explicit
    left-to-right scanners for the concrete regex shapes used there
    (a literal key name followed by a greedy character-class run, with
    optional quotes in the second variant);
  * the nested match-combining loop writing into a Go map keyed by the
    access-key identifier (`main.go` lines 94-103);
  * `searchIAMKeysInRepo`'s `filepath.Walk` callback, which returns the
    file-read error and thereby aborts the walk (`main.go` lines 112-134);
  * `getCommitHashes`' `strings.Split(output, "\n")` (`main.go` line 54);
  * `validateIAMKey` of both variants (`main.go` lines 143-163,
    `part_000` lines 144-177), abstracted over the AWS call results;
  * the `main` driver loop of `main.go` (lines 188-211), abstracted over
    the external collaborators (git checkout, file system, AWS), with an
    event log of checkouts, completed scans and validation calls;
  * the goroutine structure of `part_000`'s `main` (lines 209-238) as a
    set of per-commit event threads together with an interleaving relation.

File contents are `List Char` (the sources scan ASCII byte strings).
-/

abbrev Str : Type := List Char

/-! ## Character classes of the regular expressions -/

/-- Character class `[A-Z0-9]` of the `main.go` access-key pattern. -/
def isAKChar (c : Char) : Bool := c.isUpper || c.isDigit

/-- The six characters excluded by `[^ \t\r\n\v\f]` in both secret patterns. -/
def isSpaceClass (c : Char) : Bool :=
  c == ' ' || c == '\t' || c == '\r' || c == '\n' || c == '\x0b' || c == '\x0c'

/-- Character class `[^ \t\r\n\v\f]` of the secret-key patterns. -/
def isSecretChar (c : Char) : Bool := !isSpaceClass c

/-- Regex `\w`, i.e. `[0-9A-Za-z_]`. -/
def isWordChar (c : Char) : Bool := c.isAlphanum || c == '_'

/-- Character class `[\w\/\+]` of the `part_000` access-key pattern. -/
def isValueChar (c : Char) : Bool := isWordChar c || c == '/' || c == '+'

/-- Case-insensitive character comparison, for the `(?i)` regex flag. -/
def lowerEq (a b : Char) : Bool := a.toLower == b.toLower

/-- Case-insensitive "starts with" test. -/
def ciStarts : List Char → List Char → Bool
  | [], _ => true
  | _ :: _, [] => false
  | a :: l, b :: r => lowerEq a b && ciStarts l r

/-- Quote class `["']` of the `part_000` patterns. -/
def quoteChar (c : Char) : Bool := c == '\x27' || c == '\x22'

/-! ## The scanners (`regexp.FindAllStringSubmatch` for the concrete patterns)

Go's RE2 finds leftmost matches and continues after the end of each match.
For a pattern of the shape "literal name, then a greedy character-class run"
this is exactly a left-to-right scan: at each position, if the (possibly
case-insensitive) literal starts here and at least one class character
follows it, emit the match and resume after its end, otherwise move one
character right.  A match is returned Go-style as the list
`[fullMatch, group1, ...]`. -/

/-- Matcher for the `main.go` patterns `lit([class]+)`; `ci` selects the
`(?i)` flag.  The fuel argument is the length of the remaining input. -/
def scanLit (ci : Bool) (lit : List Char) (p : Char → Bool) : Nat → List Char → List (List Str)
  | 0, _ => []
  | _ + 1, [] => []
  | fuel + 1, c :: cs =>
    let s := c :: cs
    if (if ci then ciStarts lit s else List.isPrefixOf lit s) then
      let rest := s.drop lit.length
      let run := rest.takeWhile p
      if run = [] then scanLit ci lit p fuel cs
      else [s.take lit.length ++ run, run] :: scanLit ci lit p fuel (rest.dropWhile p)
    else scanLit ci lit p fuel cs

/-- Matcher for the `part_000` patterns
`(?i)(name)[=:]["']?([class]+)["']?`: group 1 is the matched key *name*,
group 2 the value run.  Quotes are optional; since a quote character never
belongs to the access-value class, the optional groups are forced exactly
as RE2 resolves them. -/
def scanLit2 (lit : List Char) (p : Char → Bool) : Nat → List Char → List (List Str)
  | 0, _ => []
  | _ + 1, [] => []
  | fuel + 1, c :: cs =>
    let s := c :: cs
    if ciStarts lit s then
      let g1 := s.take lit.length
      match s.drop lit.length with
      | [] => scanLit2 lit p fuel cs
      | sep :: r2 =>
        if sep == '=' || sep == ':' then
          let q1 := match r2 with | q :: _ => quoteChar q | [] => false
          let r3 := if q1 then r2.drop 1 else r2
          let run := r3.takeWhile p
          if run = [] then scanLit2 lit p fuel cs
          else
            let r4 := r3.dropWhile p
            let q2 := match r4 with | q :: _ => quoteChar q | [] => false
            let full := g1 ++ [sep] ++ (if q1 then r2.take 1 else [])
                          ++ run ++ (if q2 then r4.take 1 else [])
            [full, g1, run] :: scanLit2 lit p fuel (if q2 then r4.drop 1 else r4)
        else scanLit2 lit p fuel cs
    else scanLit2 lit p fuel cs

/-- Literal of `main.go`'s pattern `AWS_ACCESS_KEY_ID=([A-Z0-9]+)` (case-sensitive). -/
def akLit : List Char := ("AWS_ACCESS_KEY_ID=").toList

/-- Literal of `main.go`'s pattern `(?i)AWS_SECRET_ACCESS_KEY=([^ \t\r\n\v\f]+)`. -/
def skLit : List Char := ("AWS_SECRET_ACCESS_KEY=").toList

/-- Name literal of `part_000`'s access-key pattern (matched case-insensitively). -/
def akLitP0 : List Char := ("aws_access_key_id").toList

/-- Name literal of `part_000`'s secret-key pattern (matched case-insensitively). -/
def skLitP0 : List Char := ("aws_secret_access_key").toList

/-! ## Combining matches into the result map

`main.go` lines 94-103 (`part_000` lines 95-104 are textually identical):

    iamKeys := make(map[string]string)
    for _, match := range accessKeyIDs {
        accessKeyID := match[1]
        for _, secretMatch := range secretAccessKeys {
            if secretMatch[0] != "" {
                secretAccessKey := secretMatch[1]
                iamKeys[accessKeyID] = secretAccessKey
            }
        }
    }

The Go map is embedded as an association list with unique keys;
`mapInsert` is the assignment `iamKeys[k] = v`. -/

/-- Go map assignment `m[k] = v` on an association list with unique keys. -/
def mapInsert (m : List (Str × Str)) (k v : Str) : List (Str × Str) :=
  if m.any (fun p => p.1 == k) then
    m.map (fun p => if p.1 == k then (k, v) else p)
  else m ++ [(k, v)]

/-- One step of the inner loop: assign `iamKeys[accessKeyID] = secretMatch[1]`
when `secretMatch[0] != ""`. -/
def insertSecretStep (k : Str) (m2 : List (Str × Str)) (sm : List Str) : List (Str × Str) :=
  if sm.getD 0 [] ≠ [] then mapInsert m2 k (sm.getD 1 []) else m2

/-- The nested loop of `searchIAMKeysInFile` combining the two match lists.
Both variants read `match[1]` and `secretMatch[1]`. -/
def combineIAMKeys (accessKeyIDs secretAccessKeys : List (List Str)) : List (Str × Str) :=
  accessKeyIDs.foldl (fun m mtch => secretAccessKeys.foldl (insertSecretStep (mtch.getD 1 [])) m) []

/-- Model of `searchIAMKeysInFile` of `main.go` (lines 78-106), applied to the file
content (the `ioutil.ReadFile` I/O is factored out by the callers below). -/
def searchIAMKeysInFile (content : List Char) : List (Str × Str) :=
  combineIAMKeys (scanLit false akLit isAKChar content.length content)
                 (scanLit true skLit isSecretChar content.length content)

/-- Model of `searchIAMKeysInFile` of the `part_000` variant (lines 79-107).  Note
that its `match[1]` is the first capture group — the key *name* from the
alternation — not the value. -/
def searchIAMKeysInFileP0 (content : List Char) : List (Str × Str) :=
  combineIAMKeys (scanLit2 akLitP0 isValueChar content.length content)
                 (scanLit2 skLitP0 isSecretChar content.length content)

/-! ## Concrete file contents used by the scenarios -/

/-- The spec's section-8 scenario content. -/
def c6content : List Char :=
  ("AWS_ACCESS_KEY_ID=AKIA1234567890ABCD12\nAWS_SECRET_ACCESS_KEY=abcDEF1234567890+/==").toList

/-- One identifier followed by two different secrets. -/
def c7content : List Char :=
  ("AWS_ACCESS_KEY_ID=AKIA7EXAMPLE\nAWS_SECRET_ACCESS_KEY=firstsecret\nAWS_SECRET_ACCESS_KEY=secondsecret").toList

/-- One identifier (N = 1) and two secrets (M = 2). -/
def c8content : List Char :=
  ("AWS_ACCESS_KEY_ID=AKIA8EXAMPLE\nAWS_SECRET_ACCESS_KEY=alpha111\nAWS_SECRET_ACCESS_KEY=beta2222").toList

/-- A content with a single identifier/secret pair. -/
def c2content : List Char :=
  ("AWS_ACCESS_KEY_ID=AKIA2EXAMPLE\nAWS_SECRET_ACCESS_KEY=somesecret9").toList

/-! ## searchIAMKeysInRepo (`main.go` lines 109-141)

`filepath.Walk` visits the regular files of the tree; the callback calls
`searchIAMKeysInFile` and *returns* any error, which makes `filepath.Walk`
stop and return that error, so `searchIAMKeysInRepo` fails as a whole.
The file system is factored out as the list of file paths together with a
read function. -/

/-- Model of `searchIAMKeysInRepo`, abstracted over a file-read function.  Visits the
files in order; a read error wraps and aborts the whole walk; otherwise a
file with a non-empty key map is added to the result. -/
def searchIAMKeysInRepo (readFile : String → Except String (List Char)) :
    List String → Except String (List (String × List (Str × Str)))
  | [] => Except.ok []
  | f :: fs =>
    match readFile f with
    | Except.error e => Except.error ("failed to search IAM keys in file: " ++ e)
    | Except.ok content =>
      let iamKeys := searchIAMKeysInFile content
      match searchIAMKeysInRepo readFile fs with
      | Except.error e => Except.error e
      | Except.ok rest => Except.ok (if iamKeys = [] then rest else (f, iamKeys) :: rest)

/-! ## getCommitHashes (`main.go` lines 39-57)

On success the function splits the `git log` output on newlines with
`strings.Split`.  Go's `strings.Split(s, "\n")` always returns at least one
element; on the empty string it returns `[""]`. -/

/-- Go's `strings.Split(s, "\n")` on the character list of `s`. -/
def splitNl : List Char → List (List Char)
  | [] => [[]]
  | c :: cs =>
    if c = '\n' then [] :: splitNl cs
    else
      match splitNl cs with
      | [] => [[c]]
      | t :: ts => (c :: t) :: ts

/-- Model of `getCommitHashes` on the success path, as a function of the text that
the `git log --pretty=format:%H` command produced. -/
def getCommitHashes (gitLogOutput : String) : List String :=
  (splitNl gitLogOutput.toList).map (fun cs => String.mk cs)

/-! ## validateIAMKey

`main.go` lines 143-163: build a session, call `sts.GetCallerIdentity`;
any error — of either step, of any kind — yields `false`, success yields
`true`.  `part_000` lines 144-177: build a session, call
`iam.GetAccessKeyLastUsed`; `NoSuchEntity` yields `false`, every other
error yields `false`, success yields `true` iff the result has a user
name.  Both return `bool`: there is no third outcome.  The AWS calls are
external, so they enter as explicit call-result values. -/

/-- Result of an external AWS SDK call without interesting payload. -/
inductive AwsCall where
  | ok
  | err (reason : String)
deriving DecidableEq

/-- Result of `iam.GetAccessKeyLastUsed`: success carries the optional
user name; errors are either typed `awserr` codes or other failures. -/
inductive IamCall where
  | ok (userName : Option String)
  | errAws (code : String)
  | errOther (reason : String)
deriving DecidableEq

/-- Model of `validateIAMKey` of `main.go`, over the results of `session.NewSession`
and `sts.GetCallerIdentity`. -/
def validateIAMKey (newSession getCallerIdentity : AwsCall) : Bool :=
  match newSession with
  | AwsCall.err _ => false
  | AwsCall.ok =>
    match getCallerIdentity with
    | AwsCall.err _ => false
    | AwsCall.ok => true

/-- Model of `validateIAMKey` of `part_000`, over the results of `session.NewSession`
and `iam.GetAccessKeyLastUsed`.  The switch distinguishes
`iam.ErrCodeNoSuchEntityException` ("NoSuchEntity") from the default case,
but both branches return `false`, exactly as in the source. -/
def validateIAMKeyP0 (newSession : AwsCall) (getAccessKeyLastUsed : IamCall) : Bool :=
  match newSession with
  | AwsCall.err _ => false
  | AwsCall.ok =>
    match getAccessKeyLastUsed with
    | IamCall.errAws code => if code = "NoSuchEntity" then false else false
    | IamCall.errOther _ => false
    | IamCall.ok userName => match userName with | some _ => true | none => false

/-! ## The main driver loop of `main.go` (lines 186-215)

    validKeysFound := false
    for _, commitHash := range commitHashes {
        checkoutCommit(...)        // log.Fatalf on error
        searchIAMKeysInRepo(...)   // log.Fatalf on error
        for ... { if validateIAMKey(...) { validKeysFound = true ... } }
    }

The collaborators (git, file system, AWS) are factored into an `Oracles`
record; the run is embedded as a function producing a log of the checkouts
attempted, the revisions whose scan completed, the identifiers passed to
`validateIAMKey` (in order), and the final result — either the normal
completion with the `validKeysFound` flag or the `log.Fatalf` termination
with its message. -/

/-- External collaborators of the run.  `files c` is the set of regular
files the working tree holds after revision `c` has been checked out, and
`readFile c f` the content of `f` at that revision (the tree reflects the
most recent successful checkout; in the sequential driver below that is
always `c` itself). -/
structure Oracles where
  checkout : String → Except String Unit
  files : String → List String
  readFile : String → String → Except String (List Char)
  validate : Str → Str → Bool

/-- The call `searchIAMKeysInRepo` performs for commit `c`. -/
def scanRepoModel (o : Oracles) (c : String) : Except String (List (String × List (Str × Str))) :=
  searchIAMKeysInRepo (o.readFile c) (o.files c)

/-- Final state of the process: `log.Fatalf` (which exits) or normal
completion carrying the `validKeysFound` flag. -/
inductive RunResult where
  | fatal (msg : String)
  | ok (validKeysFound : Bool)
deriving DecidableEq

/-- Observable log of one run of `main.go`'s driver loop. -/
structure RunLog where
  checkouts : List String
  scanned : List String
  calls : List Str
  result : RunResult
deriving DecidableEq

/-- The driver loop of `main.go` over the remaining commit hashes, with the
current `validKeysFound` flag. -/
def runMainGo (o : Oracles) : List String → Bool → RunLog
  | [], vf => ⟨[], [], [], RunResult.ok vf⟩
  | c :: cs, vf =>
    match o.checkout c with
    | Except.error e =>
      ⟨[c], [], [], RunResult.fatal ("Error checking out commit " ++ c ++ ": " ++ e)⟩
    | Except.ok _ =>
      match scanRepoModel o c with
      | Except.error e => ⟨[c], [], [], RunResult.fatal ("Error searching for IAM keys: " ++ e)⟩
      | Except.ok found =>
        let pairs := found.foldr (fun fk acc => fk.2 ++ acc) []
        let rest := runMainGo o cs (vf || pairs.any (fun p => o.validate p.1 p.2))
        ⟨c :: rest.checkouts, c :: rest.scanned, pairs.map Prod.fst ++ rest.calls, rest.result⟩

/-- Whether a run result is the `log.Fatalf` termination. -/
def isFatal : RunResult → Bool
  | RunResult.fatal _ => true
  | RunResult.ok _ => false

/-- Whether an `Except` value is an error. -/
def isErr {α : Type} (x : Except String α) : Bool :=
  match x with
  | Except.error _ => true
  | Except.ok _ => false

/-- The checkout of commit `c` succeeds. -/
def checkoutOk (o : Oracles) (c : String) : Bool := !isErr (o.checkout c)

/-- The repository scan at commit `c` succeeds. -/
def scanRepoOk (o : Oracles) (c : String) : Bool := !isErr (scanRepoModel o c)

/-- Number of (file, key) occurrences of identifier `k` in the scan results
of commit `c` (zero when the scan fails). -/
def revOccurrences (o : Oracles) (c : String) (k : Str) : Nat :=
  match scanRepoModel o c with
  | Except.error _ => 0
  | Except.ok found => ((found.foldr (fun fk acc => fk.2 ++ acc) []).map Prod.fst).count k

/-! ## The goroutine structure of `part_000`'s main (lines 209-238)

Each commit gets its own goroutine that checks the commit out into the
*shared* working tree and then scans that tree; there is no synchronization
between the goroutines (the error channel is only read, non-blocking, after
all of them have been launched).  The observable working-tree events are
embedded as per-commit event threads, and a run of the program is any
interleaving of those threads. -/

/-- Working-tree events: materializing (checking out) a revision, and the
scan of the tree attributed to a revision. -/
inductive Ev where
  | mat (r : String)
  | scan (r : String)
deriving DecidableEq

/-- The event thread of the goroutine `part_000` spawns for one commit:
checkout, then scan. -/
def part000Threads (revs : List String) : List (List Ev) :=
  revs.map (fun r => [Ev.mat r, Ev.scan r])

/-- All ways of consuming event `e` as the head of one of the threads. -/
def pickHead (e : Ev) : List (List Ev) → List (List (List Ev))
  | [] => []
  | t :: ts =>
    (match t with
     | e2 :: rest => if e2 = e then [rest :: ts] else []
     | [] => []) ++ (pickHead e ts).map (fun ts2 => t :: ts2)

/-- Predicate `interleaves ts tr`: `tr` is an interleaving of the threads
`ts`: every event of `tr` is consumed from the head of some thread and all
threads run to completion. -/
def interleaves (ts : List (List Ev)) : List Ev → Bool
  | [] => ts.all List.isEmpty
  | e :: es => (pickHead e ts).any (fun ts2 => interleaves ts2 es)

/-- Index of the first occurrence of an event in a trace. -/
def evIdx (e : Ev) : List Ev → Option Nat
  | [] => none
  | x :: xs => if x = e then some 0 else (evIdx e xs).map (fun n => n + 1)

/-- Event `a` occurs (first) strictly before `b` in the trace. -/
def evBefore (tr : List Ev) (a b : Ev) : Bool :=
  match evIdx a tr, evIdx b tr with
  | some i, some j => decide (i < j)
  | _, _ => false

/-- The ordering the claim requires of a trace: for every revision,
materialize before scan, and for consecutive revisions `i`, `i+1`, the scan
of `i` before the materialization of `i+1`. -/
def matScanOrdered (revs : List String) (tr : List Ev) : Bool :=
  revs.all (fun r => evBefore tr (Ev.mat r) (Ev.scan r))
    && (revs.zip revs.tail).all (fun p => evBefore tr (Ev.scan p.1) (Ev.mat p.2))

/-- The event trace of `main.go`'s sequential driver loop: for each commit
in order, a checkout immediately followed by the scan. -/
def seqTrace (revs : List String) : List Ev :=
  revs.foldr (fun r acc => Ev.mat r :: Ev.scan r :: acc) []

/-- A trace in which the second goroutine's checkout lands between the
first goroutine's checkout and its scan. -/
def badTrace : List Ev := [Ev.mat "r1", Ev.mat "r2", Ev.scan "r1", Ev.scan "r2"]

/-! ## Concrete oracles for the scenarios -/

/-- Two revisions, one file, the same content (and hence the same
identifier) in both revisions; no key validates. -/
def oC2 : Oracles where
  checkout := fun _ => Except.ok ()
  files := fun _ => ["config.env"]
  readFile := fun _ _ => Except.ok c2content
  validate := fun _ _ => false

/-- The identifier of `c2content`. -/
def akia2 : Str := ("AKIA2EXAMPLE").toList

/-- Checkout of revision "a" fails (e.g. a corrupted object); revision "b"
is fine and contains a key. -/
def oC4 : Oracles where
  checkout := fun c => if c = "a" then Except.error "corrupted object" else Except.ok ()
  files := fun _ => ["config.env"]
  readFile := fun _ _ => Except.ok c2content
  validate := fun _ _ => false

/-- A tree with an unreadable file `f1` and a readable file `f2` that
contains a key. -/
def readC5 : String → Except String (List Char) :=
  fun f => if f = "f1" then Except.error "permission denied" else Except.ok c2content

/-- Every checkout fails (as `git checkout ""` does); there is nothing else
to the repository. -/
def oC9 : Oracles where
  checkout := fun _ => Except.error "pathspec did not match any file known to git"
  files := fun _ => []
  readFile := fun _ _ => Except.error "no such file"
  validate := fun _ _ => false

/-- Capture group 1 of the last match in a match list (the secret retained
by the map-combining loop, as proved below). -/
def lastCap : List (List Str) → Str
  | [] => []
  | [x] => x.getD 1 []
  | _ :: y :: t => lastCap (y :: t)

/-! # Theorems -/

/-! ## Helper lemmas about `splitNl` and the map embedding -/

theorem splitNl_ne_nil : ∀ l : List Char, splitNl l ≠ [] := by
  intro l
  cases l with
  | nil => simp [splitNl]
  | cons c cs =>
    simp only [splitNl]
    by_cases h : c = '\n'
    · simp [h]
    · simp only [if_neg h]
      cases hs : splitNl cs <;> simp

theorem fst_upd (k v : Str) (p : Str × Str) :
    (if p.1 == k then (k, v) else p).1 = p.1 := by
  cases hb : p.1 == k
  · simp
  · simp
    exact (eq_of_beq hb).symm

theorem map_upd_of_no_key (m : List (Str × Str)) (k w : Str)
    (ha : m.any (fun p => p.1 == k) = false) :
    m.map (fun p => if p.1 == k then (k, w) else p) = m := by
  induction m with
  | nil => rfl
  | cons p t ih =>
    simp only [List.any_cons, Bool.or_eq_false_iff] at ha
    have h1 : (p.1 == k) = false := ha.1
    simp only [List.map_cons, h1, Bool.false_eq_true, if_false]
    rw [ih ha.2]

theorem upd_comp (k v w : Str) :
    ((fun p : Str × Str => if p.1 == k then (k, w) else p)
        ∘ (fun p : Str × Str => if p.1 == k then (k, v) else p))
      = (fun p : Str × Str => if p.1 == k then (k, w) else p) := by
  funext p
  cases hb : p.1 == k
  · simp [Function.comp, hb]
  · simp [Function.comp, hb]

theorem any_key_upd_map (m : List (Str × Str)) (k v : Str) :
    ((m.map (fun p => if p.1 == k then (k, v) else p)).any (fun p => p.1 == k))
      = m.any (fun p => p.1 == k) := by
  rw [List.any_map]
  congr 1
  funext p
  simp only [Function.comp]
  rw [fst_upd]

/-- Go map semantics: a second assignment to the same key overwrites the
first; only the last value survives. -/
theorem mapInsert_mapInsert (m : List (Str × Str)) (k v w : Str) :
    mapInsert (mapInsert m k v) k w = mapInsert m k w := by
  unfold mapInsert
  cases ha : m.any (fun p => p.1 == k)
  · simp only [ha, Bool.false_eq_true, if_false]
    have h2 : ((m ++ [(k, v)]).any (fun p => p.1 == k)) = true := by
      simp [List.any_append]
    simp only [h2, if_true]
    rw [List.map_append, map_upd_of_no_key m k w ha]
    simp
  · simp only [ha, if_true]
    rw [any_key_upd_map m k v]
    simp only [ha, if_true]
    rw [List.map_map, upd_comp]

theorem mapInsert_keys_nodup (m : List (Str × Str)) (k v : Str)
    (h : (m.map Prod.fst).Nodup) : ((mapInsert m k v).map Prod.fst).Nodup := by
  unfold mapInsert
  cases ha : m.any (fun p => p.1 == k)
  · simp only [ha, Bool.false_eq_true, if_false]
    rw [List.map_append]
    rw [List.nodup_append]
    refine ⟨h, by simp, ?_⟩
    intro x hx
    simp only [List.map_cons, List.map_nil, List.mem_singleton]
    intro hk
    subst hk
    obtain ⟨p, hp, hpk⟩ := List.mem_map.mp hx
    have := List.any_eq_false.mp ha p hp
    simp [hpk] at this
  · simp only [ha, if_true]
    rw [List.map_map, show (Prod.fst ∘ fun p : Str × Str => if p.1 == k then (k, v) else p)
          = (Prod.fst : Str × Str → Str) from funext (fun p => fst_upd k v p)]
    exact h

theorem mem_mapInsert_values (m : List (Str × Str)) (k v : Str) (p : Str × Str)
    (hp : p ∈ mapInsert m k v) : p ∈ m ∨ p = (k, v) := by
  unfold mapInsert at hp
  cases ha : m.any (fun q => q.1 == k) <;> simp only [ha] at hp
  · simp only [Bool.false_eq_true, if_false, List.mem_append, List.mem_singleton] at hp
    exact hp
  · simp only [if_true, List.mem_map] at hp
    obtain ⟨q, hq, hqe⟩ := hp
    by_cases hb : q.1 == k
    · right
      rw [← hqe]
      simp [hb]
    · left
      rw [← hqe]
      simp only [hb, Bool.false_eq_true, if_false]
      exact hq

/-! ## C1 -/

/-- C1: the claim requires materialize(i) before scan(i) before
materialize(i+1) in every run.  The `part_000` variant runs one goroutine
per commit against the shared working tree with no synchronization, so the
trace in which the second commit is checked out between the first commit's
checkout and its scan is a legal interleaving of its threads — and that
trace violates the required order (the scan of "r1" reads a tree already
overwritten by "r2").  For contrast, the sequential trace of `main.go`'s
driver does satisfy the order on the same revisions. -/
theorem c1_part000_interleaving_breaks_order :
    interleaves (part000Threads ["r1", "r2"]) badTrace = true
      ∧ matScanOrdered ["r1", "r2"] badTrace = false
      ∧ matScanOrdered ["r1", "r2"] (seqTrace ["r1", "r2"]) = true := by
  exact ⟨by decide, by decide, by decide⟩

/-! ## C3 -/

/-- C3: the claim says a validation failure other than "identifier does not
exist" yields Indeterminate (a timeout yields Indeterminate with reason
"timeout"), never Invalid.  Both variants return a plain `bool`: a timeout
of the AWS call yields `false` — bit-for-bit the same outcome as the
authority reporting the key nonexistent (`NoSuchEntity`) — so the recorded
outcome cannot carry a reason and cannot be distinguished from Invalid. -/
theorem c3_timeout_indistinguishable_from_invalid :
    validateIAMKey AwsCall.ok (AwsCall.err "timeout") = false
      ∧ validateIAMKeyP0 AwsCall.ok (IamCall.errOther "timeout") = false
      ∧ validateIAMKeyP0 AwsCall.ok (IamCall.errAws "NoSuchEntity") = false
      ∧ validateIAMKey AwsCall.ok (AwsCall.err "timeout")
          = validateIAMKey AwsCall.ok (AwsCall.err "NoSuchEntity") := by
  exact ⟨rfl, rfl, rfl, rfl⟩

/-! ## C4 -/

/-- C4: the claim says a revision whose checkout fails is recorded as a
revision-level failure and the walk continues with the next revision.  In
`main.go`, the checkout error triggers `log.Fatalf`, which terminates the
process: with revisions ["a", "b"] and the checkout of "a" failing, the run
ends fatal, no revision is scanned (in particular "b" never is), and no
validation call is made. -/
theorem c4_materialization_failure_aborts_run :
    isFatal (runMainGo oC4 ["a", "b"] false).result = true
      ∧ (runMainGo oC4 ["a", "b"] false).scanned = []
      ∧ (runMainGo oC4 ["a", "b"] false).calls = []
      ∧ isErr (oC4.checkout "b") = false := by
  exact ⟨by decide, by decide, by decide, by decide⟩

/-! ## C5 -/

/-- C5: the claim says an unreadable file is a non-fatal per-file warning
and the remaining files of the revision are still scanned.  In the code the
`filepath.Walk` callback returns the read error, which aborts the walk:
with files ["f1", "f2"], `f1` unreadable and `f2` containing a key,
`searchIAMKeysInRepo` fails as a whole (and `main` then `log.Fatalf`s),
while scanning `f2` alone would have found the key. -/
theorem c5_unreadable_file_aborts_revision_scan :
    isErr (searchIAMKeysInRepo readC5 ["f1", "f2"]) = true
      ∧ searchIAMKeysInRepo readC5 ["f2"]
          = Except.ok [("f2", [(akia2, ("somesecret9").toList)])] := by
  exact ⟨by decide, rfl⟩

/-! ## C6 -/

/-- C6: on the scenario content, `main.go`'s extractor returns exactly one
candidate whose identifier is the value "AKIA1234567890ABCD12", as the
claim states — but the `part_000` variant reads `match[1]`, which for its
patterns is the capture group holding the key *name*, so its one candidate
has identifier "AWS_ACCESS_KEY_ID" and secret "AWS_SECRET_ACCESS_KEY",
contradicting the claim and the function's own documentation. -/
theorem c6_extractor_on_scenario_content :
    searchIAMKeysInFile c6content
        = [(("AKIA1234567890ABCD12").toList, ("abcDEF1234567890+/==").toList)]
      ∧ searchIAMKeysInFileP0 c6content
        = [(("AWS_ACCESS_KEY_ID").toList, ("AWS_SECRET_ACCESS_KEY").toList)] := by
  exact ⟨by decide, by decide⟩

/-! ## C7 -/

theorem insertSecretStep_foldl_last (k : Str) (s : List (List Str)) :
    ∀ (sm : List Str) (m : List (Str × Str)), (∀ x ∈ sm :: s, x.getD 0 [] ≠ []) →
      (sm :: s).foldl (insertSecretStep k) m = mapInsert m k (lastCap (sm :: s)) := by
  induction s with
  | nil =>
    intro sm m hv
    have h1 : sm.getD 0 [] ≠ [] := hv sm (by simp)
    show insertSecretStep k m sm = mapInsert m k (lastCap [sm])
    unfold insertSecretStep
    rw [if_pos h1]
    rfl
  | cons b t ih =>
    intro sm m hv
    have h1 : sm.getD 0 [] ≠ [] := hv sm (by simp)
    have hv2 : ∀ x ∈ b :: t, x.getD 0 [] ≠ [] := by
      intro x hx
      exact hv x (by simp [hx])
    have hstep : insertSecretStep k m sm = mapInsert m k (sm.getD 1 []) := by
      unfold insertSecretStep
      rw [if_pos h1]
    have step1 : (sm :: b :: t).foldl (insertSecretStep k) m
        = (b :: t).foldl (insertSecretStep k) (mapInsert m k (sm.getD 1 [])) := by
      rw [List.foldl_cons, hstep]
    rw [step1, ih b (mapInsert m k (sm.getD 1 [])) hv2, mapInsert_mapInsert]
    rfl

/-- C7: the claim says that of two candidates with the same identifier the
first-seen secret is retained and later duplicates never overwrite it.  The
code does the opposite: `iamKeys[accessKeyID] = secretAccessKey` runs once
per secret match, so every assignment overwrites the previous one and every
identifier in the result carries the capture of the *last* (valid) secret
match.  This is the amended, last-seen-wins statement, proved for arbitrary
match lists. -/
theorem c7_last_secret_retained (a s : List (List Str)) (hs : s ≠ [])
    (hv : ∀ x ∈ s, x.getD 0 [] ≠ []) (k v : Str)
    (hmem : (k, v) ∈ combineIAMKeys a s) : v = lastCap s := by
  obtain ⟨sm, t, rfl⟩ := List.exists_cons_of_ne_nil hs
  unfold combineIAMKeys at hmem
  have hrw : a.foldl (fun m2 mtch => (sm :: t).foldl (insertSecretStep (mtch.getD 1 [])) m2) []
      = a.foldl (fun m2 mtch => mapInsert m2 (mtch.getD 1 []) (lastCap (sm :: t))) [] :=
    List.foldl_ext _ _ _ (fun m2 mtch _ => insertSecretStep_foldl_last (mtch.getD 1 []) t sm m2 hv)
  rw [hrw] at hmem
  have inv : ∀ (l : List (List Str)) (m : List (Str × Str)),
      (∀ q ∈ m, q.2 = lastCap (sm :: t)) →
      ∀ q ∈ l.foldl (fun m2 mtch => mapInsert m2 (mtch.getD 1 []) (lastCap (sm :: t))) m,
        q.2 = lastCap (sm :: t) := by
    intro l
    induction l with
    | nil =>
      intro m hm q hq
      exact hm q hq
    | cons x xs ih =>
      intro m hm q hq
      rw [List.foldl_cons] at hq
      refine ih _ ?_ q hq
      intro r hr
      rcases mem_mapInsert_values m _ _ r hr with h | h
      · exact hm r h
      · rw [h]
  exact inv a [] (by simp) (k, v) hmem

/-- C7 counterexample: on a content whose secret matches are, in order,
"firstsecret" then "secondsecret" for the single identifier, the extractor
retains "secondsecret" — the first-seen secret is *not* the one retained,
refuting the claim as stated. -/
theorem c7_first_secret_not_retained :
    (scanLit true skLit isSecretChar c7content.length c7content).map (fun m => m.getD 1 [])
        = [("firstsecret").toList, ("secondsecret").toList]
      ∧ searchIAMKeysInFile c7content
          = [(("AKIA7EXAMPLE").toList, ("secondsecret").toList)]
      ∧ ("firstsecret").toList ≠ ("secondsecret").toList := by
  exact ⟨by decide, by decide, by decide⟩

/-- Witness for `c7_last_secret_retained` at the concrete two-secret
content. -/
theorem c7_last_secret_retained_witness :
    ("secondsecret").toList
      = lastCap (scanLit true skLit isSecretChar c7content.length c7content) :=
  c7_last_secret_retained (scanLit false akLit isAKChar c7content.length c7content)
    (scanLit true skLit isSecretChar c7content.length c7content) (by decide) (by decide)
    (("AKIA7EXAMPLE").toList) (("secondsecret").toList) (by decide)

/-! ## C8 -/

theorem innerFold_keys_nodup (k : Str) (s : List (List Str)) :
    ∀ m : List (Str × Str), (m.map Prod.fst).Nodup →
      ((s.foldl (insertSecretStep k) m).map Prod.fst).Nodup := by
  induction s with
  | nil =>
    intro m h
    exact h
  | cons sm t ih =>
    intro m h
    simp only [List.foldl_cons]
    apply ih
    unfold insertSecretStep
    by_cases hg : sm.getD 0 [] ≠ []
    · rw [if_pos hg]
      exact mapInsert_keys_nodup m k _ h
    · rw [if_neg hg]
      exact h

/-- C8: the claim says every identifier match is paired with every secret
match, yielding up to N×M candidate pairs and in particular more than one
pair per identifier when M > 1.  The nested loop does visit all N×M
combinations, but it writes them into a map keyed by the identifier, so the
output never holds two pairs with the same identifier: the identifiers of
the result are pairwise distinct for *all* match lists (at most N pairs,
never N×M). -/
theorem c8_at_most_one_pair_per_identifier (a s : List (List Str)) :
    ((combineIAMKeys a s).map Prod.fst).Nodup := by
  unfold combineIAMKeys
  have inv : ∀ (l : List (List Str)) (m : List (Str × Str)), (m.map Prod.fst).Nodup →
      ((l.foldl (fun m2 mtch => s.foldl (insertSecretStep (mtch.getD 1 [])) m2) m).map
        Prod.fst).Nodup := by
    intro l
    induction l with
    | nil =>
      intro m h
      exact h
    | cons x xs ih =>
      intro m h
      simp only [List.foldl_cons]
      exact ih _ (innerFold_keys_nodup _ s m h)
  exact inv a [] (by simp)

/-- C8 counterexample: a content with N = 1 identifier match and M = 2
secret matches yields exactly one candidate pair — not N×M = 2 and not more
than one pair for the identifier. -/
theorem c8_fanout_collapsed_to_single_pair :
    (scanLit false akLit isAKChar c8content.length c8content).length = 1
      ∧ (scanLit true skLit isSecretChar c8content.length c8content).length = 2
      ∧ (searchIAMKeysInFile c8content).length = 1 := by
  exact ⟨by decide, by decide, by decide⟩

/-! ## C2 -/

/-- C2: the claim says each unique identifier is validated at most once per
run.  `main.go` keeps no seen-set: every (revision, file, key) occurrence
found by a scan is passed to `validateIAMKey`.  This is the amended,
once-per-occurrence statement: over any run in which all checkouts and
scans succeed, the number of validation calls made for an identifier equals
its total number of occurrences across the scanned revisions — N revisions
containing it yield N calls, not one. -/
theorem c2_validated_once_per_occurrence (o : Oracles) (commits : List String) (vf : Bool)
    (k : Str) (h : commits.all (fun c => checkoutOk o c && scanRepoOk o c) = true) :
    (runMainGo o commits vf).calls.count k
      = (commits.map (fun c => revOccurrences o c k)).sum := by
  revert h
  induction commits generalizing vf with
  | nil =>
    intro h
    simp [runMainGo]
  | cons c cs ih =>
    intro h
    simp only [List.all_cons, Bool.and_eq_true] at h
    obtain ⟨⟨hc, hs⟩, ht⟩ := h
    cases hco : o.checkout c with
    | error e =>
      rw [checkoutOk] at hc
      rw [hco] at hc
      simp [isErr] at hc
    | ok u =>
      cases hsc : scanRepoModel o c with
      | error e =>
        rw [scanRepoOk] at hs
        rw [hsc] at hs
        simp [isErr] at hs
      | ok found =>
        simp only [runMainGo, hco, hsc, List.map_cons, List.sum_cons]
        rw [List.count_append]
        have hocc : revOccurrences o c k
            = ((found.foldr (fun fk acc => fk.2 ++ acc) []).map Prod.fst).count k := by
          rw [revOccurrences, hsc]
        rw [hocc]
        congr 1
        exact ih _ ht

/-- C2 counterexample: with the same identifier present in both of two
revisions, the run makes two validation calls for it — not the single call
the claim requires. -/
theorem c2_two_revisions_two_validation_calls :
    (runMainGo oC2 ["c1", "c2"] false).calls.count akia2 = 2
      ∧ ¬ (runMainGo oC2 ["c1", "c2"] false).calls.count akia2 = 1 := by
  exact ⟨by decide, by decide⟩

/-- Witness for `c2_validated_once_per_occurrence` on the concrete
two-revision run. -/
theorem c2_validated_once_per_occurrence_witness :
    (["c1", "c2"].all (fun c => checkoutOk oC2 c && scanRepoOk oC2 c) = true)
      ∧ (runMainGo oC2 ["c1", "c2"] false).calls.count akia2
          = (["c1", "c2"].map (fun c => revOccurrences oC2 c akia2)).sum :=
  ⟨by decide, c2_validated_once_per_occurrence oC2 ["c1", "c2"] false akia2 (by decide)⟩

/-! ## C9 -/

/-- C9: the claim says a repository with zero revisions yields an empty
report without error.  In the code a zero-commit repository can never reach
the loop with zero iterations: when revision enumeration succeeds with
empty output, `getCommitHashes` returns `[""]`, the loop treats `""` as a
commit hash, and as soon as its checkout fails (as `git checkout ""` does)
the run dies in `log.Fatalf` — nothing is scanned, nothing is reported, and
the process exits with an error instead of completing with an empty
report.  (When the enumeration itself fails, `main` also aborts via
`log.Fatalf`.) -/
theorem c9_zero_revision_run_aborts (o : Oracles) (e : String)
    (h : o.checkout "" = Except.error e) :
    getCommitHashes "" = [""]
      ∧ isFatal (runMainGo o (getCommitHashes "") false).result = true
      ∧ (runMainGo o (getCommitHashes "") false).scanned = []
      ∧ (runMainGo o (getCommitHashes "") false).calls = [] := by
  have h0 : getCommitHashes "" = [""] := rfl
  refine ⟨h0, ?_, ?_, ?_⟩ <;> rw [h0] <;> simp [runMainGo, h, isFatal]

/-- Witness for `c9_zero_revision_run_aborts` with a concrete oracle whose
checkout of `""` fails. -/
theorem c9_zero_revision_run_aborts_witness :
    getCommitHashes "" = [""]
      ∧ isFatal (runMainGo oC9 (getCommitHashes "") false).result = true
      ∧ (runMainGo oC9 (getCommitHashes "") false).scanned = []
      ∧ (runMainGo oC9 (getCommitHashes "") false).calls = [] :=
  c9_zero_revision_run_aborts oC9 "pathspec did not match any file known to git" rfl

/-! ## C10 -/

/-- C10: `getCommitHashes` splits the enumeration output on newlines with
`strings.Split`, which never yields an empty slice: on every output text
the result is non-empty, on empty output it is exactly `[""]`, and the main
loop then treats that empty string as a revision identifier — its first
(and only) checkout attempt is of commit `""`, whatever the collaborators
do. -/
theorem c10_getCommitHashes_never_empty :
    (∀ s : String, getCommitHashes s ≠ [])
      ∧ getCommitHashes "" = [""]
      ∧ ∀ o : Oracles, (runMainGo o (getCommitHashes "") false).checkouts = [""] := by
  refine ⟨?_, rfl, ?_⟩
  · intro s hmap
    unfold getCommitHashes at hmap
    exact splitNl_ne_nil s.toList (List.map_eq_nil_iff.mp hmap)
  · intro o
    have h0 : getCommitHashes "" = [""] := rfl
    rw [h0]
    cases hco : o.checkout "" with
    | error e => simp [runMainGo, hco]
    | ok u =>
      cases hsc : scanRepoModel o "" with
      | error e2 => simp [runMainGo, hco, hsc]
      | ok found => simp [runMainGo, hco, hsc]
